import Mathlib

/-!
Verification of the `syster-diagram-core` view-resolution engine.

This file gives a shallow embedding, in Lean 4, of the view-resolution
engine of the `syster-diagram-core` TypeScript package
(`src/view-resolver.ts`, `src/converter.ts`, `src/sysml-views.ts`) and
proves properties of that embedding.

Modelling conventions:
* TypeScript strings are `String`; `===` on strings is `String` equality,
  `String.prototype.includes` is the substring test `jsIncludes`,
  `startsWith` / `slice` are `String.startsWith` / `String.drop`.
* Optional fields (`field?: T`) are `Option T`.  JavaScript truthiness of
  an optional string field is "present and non-empty"; of an optional
  boolean it is "present and `true`"; of an optional object it is
  "present".
* `Record<string, unknown>` property bags are ordered key/value lists
  `List (String × PropVal)` with `PropVal` a small JS-value model.
* JS object literals built with spread (`{ a, b, ...rest }`) are ordered
  key/value lists where a later occurrence of a key overrides an earlier
  one; `objGet` is field lookup with that last-wins semantics.
* A JS `Map` is an insertion-ordered association list; `Map.get` is
  `List.lookup`, `Map.set` overwrites in place (`mapSet`).
* The unguarded recursion of `exposeMembers` is embedded with an explicit
  fuel parameter; running out of fuel yields `none`, so "the source
  recursion terminates" is rendered as "some fuel yields `some _`".
-/

/-- Model of a JavaScript runtime value stored in a property bag
(`Record<string, unknown>`). -/
inductive PropVal : Type where
  | str (s : String) : PropVal
  | int (n : Int) : PropVal
  | bool (b : Bool) : PropVal
  | null : PropVal
deriving DecidableEq, Repr

/-!
JS strings are modelled through their character lists (`String.data`),
and the string primitives the source uses are defined on those lists so
that they compute by kernel reduction: `jsIncludes` is
`String.prototype.includes`, `jsStartsWith` is `startsWith`, `jsDrop`
is `slice(n)`, `jsEndsWith` / `jsDropRight` express the trailing-marker
regex of `resolveNamespacePattern`.
-/

/-- JS `haystack.includes(needle)`: substring containment. -/
def jsIncludes (haystack needle : String) : Bool :=
  decide (needle.data <:+: haystack.data)

/-- JS `s.startsWith(p)`. -/
def jsStartsWith (s p : String) : Bool :=
  decide (p.data <+: s.data)

/-- JS `s.slice(n)` (drop the first `n` characters). -/
def jsDrop (s : String) (n : Nat) : String :=
  String.mk (s.data.drop n)

/-- JS `s.endsWith(p)`. -/
def jsEndsWith (s p : String) : Bool :=
  decide (p.data <:+ s.data)

/-- Drop the last `n` characters of `s`. -/
def jsDropRight (s : String) (n : Nat) : String :=
  String.mk (s.data.take (s.data.length - n))

/-- The length of a JS string. -/
def jsLength (s : String) : Nat := s.data.length

-- ========== Model store (view-resolver.ts) ==========

/-- `SysMLElement` from `view-resolver.ts`. -/
structure SysMLElement : Type where
  id : String
  name : String
  qualifiedName : String
  metaclass : String
  parent : Option String
  children : List String
  properties : List (String × PropVal)
deriving DecidableEq, Repr

/-- `SysMLRelationship` from `view-resolver.ts`. -/
structure SysMLRelationship : Type where
  id : String
  type : String
  source : String
  target : String
  properties : List (String × PropVal)
deriving DecidableEq, Repr

/-- `ModelContext` from `view-resolver.ts`: `elements` is a JS `Map`
keyed by qualified name, modelled as an insertion-ordered association
list; `relationships` is an array. -/
structure ModelContext : Type where
  elements : List (String × SysMLElement)
  relationships : List SysMLRelationship
deriving DecidableEq, Repr

/-- JS `Map.set`: overwrite an existing key in place, else append. -/
def mapSet {α : Type} (m : List (String × α)) (k : String) (v : α) :
    List (String × α) :=
  match m with
  | [] => [(k, v)]
  | (k', v') :: rest =>
    if k' = k then (k', v) :: rest else (k', v') :: mapSet rest k v

/-- `createModelContext` from `view-resolver.ts`. -/
def createModelContext : ModelContext := { elements := [], relationships := [] }

/-- `addElement` from `view-resolver.ts` (state-passing form of the
mutation `context.elements.set(element.qualifiedName, element)`). -/
def addElement (context : ModelContext) (element : SysMLElement) : ModelContext :=
  { context with elements := mapSet context.elements element.qualifiedName element }

/-- `addRelationship` from `view-resolver.ts`. -/
def addRelationship (context : ModelContext) (relationship : SysMLRelationship) :
    ModelContext :=
  { context with relationships := context.relationships ++ [relationship] }

-- ========== View declarations (sysml-views.ts) ==========

/-- `ExposeClause` from `sysml-views.ts` (`alias` is a Lean keyword, so
that field is called `aliasName` here). -/
structure ExposeClause : Type where
  id : String
  target : String
  allMembers : Option Bool
  recursive : Option Bool
  aliasName : Option String
deriving DecidableEq, Repr

/-- `FilterExpression` from `sysml-views.ts`: a predicate-tree node with
optional metaclass test, optional negation, optional chained `and`/`or`
children and an optional free-text expression.  Constructor argument
order: id, metaclass, not, and, or, expression. -/
inductive FilterExpression : Type where
  | mk (id : String) (metaclass : Option String) (negated : Option Bool)
      (andChild : Option FilterExpression) (orChild : Option FilterExpression)
      (expression : Option String) : FilterExpression

/-- The `metaclass` field of a `FilterExpression`. -/
def FilterExpression.metaclass : FilterExpression → Option String
  | .mk _ m _ _ _ _ => m

/-- The `expression` field of a `FilterExpression`. -/
def FilterExpression.expression : FilterExpression → Option String
  | .mk _ _ _ _ _ e => e

/-- `RenderingReference` from `sysml-views.ts`. -/
structure RenderingReference : Type where
  name : String
  preRelease : Option Bool
deriving DecidableEq, Repr

/-- `ViewDefinition` from `sysml-views.ts`.  The optional `nestedViews`
field (unused by the resolver) is omitted from the model. -/
structure ViewDefinition : Type where
  id : String
  name : String
  qualifiedName : String
  viewType : String
  documentation : Option String
  exposes : List ExposeClause
  filters : List FilterExpression
  rendering : Option RenderingReference

/-- `ViewUsage` from `sysml-views.ts`. -/
structure ViewUsage : Type where
  id : String
  name : String
  qualifiedName : String
  definition : Option String
  exposes : Option (List ExposeClause)
  filters : Option (List FilterExpression)
  rendering : Option RenderingReference

-- ========== Diagram result types (index.ts) ==========

/-- A 2-D position (`{ x, y }` in `index.ts`). -/
structure Position : Type where
  x : Int
  y : Int
deriving DecidableEq, Repr

/-- `DiagramNode` from `index.ts`: the `data` bag is a JS object built by
spread, modelled as an ordered key/value list (later keys override). -/
structure DiagramNode : Type where
  id : String
  type : String
  position : Position
  data : List (String × PropVal)
deriving DecidableEq, Repr

/-- A `DiagramEdge` value as actually built by `findRelationshipEdges`:
the object literal `{ id, source, target, type, ...rel.properties }`,
modelled as an ordered key/value list (later keys override earlier
ones). -/
def DiagramEdgeObj : Type := List (String × PropVal)

instance : DecidableEq DiagramEdgeObj := by
  unfold DiagramEdgeObj; infer_instance

/-- Field access on a JS object modelled as an ordered key/value list:
the LAST binding of a key wins (later spread entries override earlier
literal fields). -/
def objGet (o : List (String × PropVal)) (k : String) : Option PropVal :=
  o.reverse.lookup k

-- ========== Expose resolution (view-resolver.ts) ==========

/-- `Map.get` on the element store: `context.elements.get(key)`. -/
def ModelContext.getElement (context : ModelContext) (key : String) :
    Option SysMLElement :=
  context.elements.lookup key

/-- The prefix computation of `resolveNamespacePattern`:
`pattern.replace(/::(\*{1,2})?$/, '')`, i.e. drop a trailing `"::**"`,
`"::*"` or bare `"::"` (the regex also matches when the optional star
group is empty). -/
def stripNamespaceMarker (pat : String) : String :=
  if jsEndsWith pat "::**" then jsDropRight pat 4
  else if jsEndsWith pat "::*" then jsDropRight pat 3
  else if jsEndsWith pat "::" then jsDropRight pat 2
  else pat

/-- `resolveNamespacePattern` from `view-resolver.ts`.  The `allMembers`
parameter is received (as in the source) but never read. -/
def resolveNamespacePattern (pat : String) (allMembers recursive : Bool)
    (context : ModelContext) : List SysMLElement :=
  let pfx := stripNamespaceMarker pat
  (context.elements.filter fun kv =>
    jsStartsWith kv.1 (pfx ++ "::") &&
      (recursive || !jsIncludes (jsDrop kv.1 (jsLength pfx + 2)) "::")).map (·.2)

/-- The body of the `exposeMembers` child loop: look the child name up,
skip it when absent, recurse (through `go`) when `recursive`, otherwise
take the child itself. -/
def exposeChildF (recursive : Bool) (context : ModelContext)
    (go : SysMLElement → Option (List SysMLElement)) (childName : String) :
    Option (List SysMLElement) :=
  match context.getElement childName with
  | none => some []
  | some child => if recursive then go child else some [child]

/-- `exposeMembers` from `view-resolver.ts`, with explicit fuel standing
in for the source's unguarded recursion: `none` means the fuel ran out
before the recursion bottomed out.  The result is the element followed
by, for each child name in order, nothing (child not in the store), the
child itself (`recursive = false`), or the child's own members
(`recursive = true`). -/
def exposeMembersF : Nat → SysMLElement → Bool → ModelContext →
    Option (List SysMLElement)
  | 0, _, _, _ => none
  | fuel + 1, element, recursive, context => do
    let childResults ← element.children.mapM
      (exposeChildF recursive context fun child => exposeMembersF fuel child true context)
    some (element :: childResults.flatten)

/-- `resolveExposeClause` from `view-resolver.ts`.  `allMembers ?? false`
and `recursive ?? false` become `Option.getD _ false`; `!allMembers` is
JS truthiness (absent or `false`). -/
def resolveExposeClauseF (fuel : Nat) (expose : ExposeClause)
    (context : ModelContext) : Option (List SysMLElement) :=
  match context.getElement expose.target with
  | none =>
    some (resolveNamespacePattern expose.target (expose.allMembers.getD false)
      (expose.recursive.getD false) context)
  | some element =>
    if !(expose.allMembers.getD false) then some [element]
    else exposeMembersF fuel element (expose.recursive.getD false) context

/-- `collectExposedElements` from `view-resolver.ts`: accumulate the
resolved elements of each clause into a `Map` keyed by qualified name
(overwrite in place), then return the values in order. -/
def collectExposedElementsF (fuel : Nat) (exposes : List ExposeClause)
    (context : ModelContext) : Option (List SysMLElement) := do
  let result ← exposes.foldlM
    (fun acc expose => do
      let exposed ← resolveExposeClauseF fuel expose context
      return exposed.foldl (fun acc element => mapSet acc element.qualifiedName element) acc)
    ([] : List (String × SysMLElement))
  return result.map (·.2)

-- ========== Filter application (view-resolver.ts) ==========

/-- `evaluateFilter` from `view-resolver.ts`, preserving the source's
fixed evaluation order: metaclass test (replaces the running result),
expression test (replaces it again), negation, `and` only when the
running result is `true`, `or` only when it is `false`.  The truthiness
guards on the optional string fields require them to be present and
non-empty. -/
def evaluateFilter (element : SysMLElement) : FilterExpression → Bool
  | .mk _ mcls negated andChild orChild expr =>
    let r1 : Bool := match mcls with
      | some m => if m ≠ "" then decide (element.metaclass = m) else true
      | none => true
    let r2 : Bool := match expr with
      | some s =>
        if s ≠ "" then jsIncludes element.metaclass s || jsIncludes element.name s
        else r1
      | none => r1
    let r3 : Bool := if negated.getD false then !r2 else r2
    let r4 : Bool := match andChild with
      | some g => if r3 then r3 && evaluateFilter element g else r3
      | none => r3
    match orChild with
      | some g => if !r4 then evaluateFilter element g else r4
      | none => r4

/-- `applyFilters` from `view-resolver.ts`: an empty filter list keeps
everything, otherwise every top-level filter must pass (implicit AND). -/
def applyFilters (elements : List SysMLElement)
    (filters : List FilterExpression) : List SysMLElement :=
  if filters.length = 0 then elements
  else elements.filter fun element => filters.all fun f => evaluateFilter element f

-- ========== Projection (view-resolver.ts) ==========

/-- `elementToNode` from `view-resolver.ts`; the `data` bag is the object
literal `{ name, qualifiedName, ...element.properties }`. -/
def elementToNode (element : SysMLElement) : DiagramNode :=
  { id := element.id
    type := element.metaclass
    position := { x := 0, y := 0 }
    data := [("name", PropVal.str element.name),
             ("qualifiedName", PropVal.str element.qualifiedName)] ++
            element.properties }

/-- The edge object literal `{ id, source, target, type, ...rel.properties }`
built by `findRelationshipEdges`. -/
def relationshipToEdgeObj (rel : SysMLRelationship) : DiagramEdgeObj :=
  [("id", PropVal.str rel.id), ("source", PropVal.str rel.source),
   ("target", PropVal.str rel.target), ("type", PropVal.str rel.type)] ++
  rel.properties

/-- `findRelationshipEdges` from `view-resolver.ts`: keep the
relationships whose source and target are both qualified names of
listed elements, and convert each to an edge object. -/
def findRelationshipEdges (elements : List SysMLElement)
    (relationships : List SysMLRelationship) : List DiagramEdgeObj :=
  let elementNames := elements.map (·.qualifiedName)
  (relationships.filter fun rel =>
    elementNames.contains rel.source && elementNames.contains rel.target).map
    relationshipToEdgeObj

-- ========== View resolution (view-resolver.ts) ==========

/-- `ResolvedView` from `view-resolver.ts`. -/
structure ResolvedView : Type where
  view : ViewUsage
  definition : ViewDefinition
  nodes : List DiagramNode
  edges : List DiagramEdgeObj
  exposedCount : Nat
  filteredCount : Nat

/-- `view.exposes ?? viewDef.exposes` from `resolveView`. -/
def effectiveExposes (view : ViewUsage) (viewDef : ViewDefinition) :
    List ExposeClause :=
  view.exposes.getD viewDef.exposes

/-- `view.filters ?? viewDef.filters` from `resolveView`. -/
def effectiveFilters (view : ViewUsage) (viewDef : ViewDefinition) :
    List FilterExpression :=
  view.filters.getD viewDef.filters

/-- `resolveView` from `view-resolver.ts`, fuel-indexed through the
expose-collection step. -/
def resolveViewF (fuel : Nat) (view : ViewUsage) (viewDef : ViewDefinition)
    (context : ModelContext) : Option ResolvedView := do
  let exposedElements ← collectExposedElementsF fuel (effectiveExposes view viewDef) context
  let filteredElements := applyFilters exposedElements (effectiveFilters view viewDef)
  return { view := view
           definition := viewDef
           nodes := filteredElements.map elementToNode
           edges := findRelationshipEdges filteredElements context.relationships
           exposedCount := exposedElements.length
           filteredCount := filteredElements.length }

-- ========== View type helpers (view-resolver.ts, sysml-views.ts) ==========

/-- `getDefaultFiltersForViewType` from `view-resolver.ts`.  The view
type strings are the `VIEW_TYPES` constants of `sysml-views.ts`
(`"InterconnectionView"`, `"ActionFlowView"`, `"StateTransitionView"`). -/
def getDefaultFiltersForViewType (viewType : String) : List FilterExpression :=
  if viewType = "InterconnectionView" then
    [FilterExpression.mk "filter-parts" (some "PartUsage") none none none none,
     FilterExpression.mk "filter-ports" (some "PortUsage") none none
       (some (FilterExpression.mk "filter-parts-2" (some "PartUsage") none none none none))
       none]
  else if viewType = "ActionFlowView" then
    [FilterExpression.mk "filter-actions" (some "ActionUsage") none none none none]
  else if viewType = "StateTransitionView" then
    [FilterExpression.mk "filter-states" (some "StateUsage") none none none none]
  else []

-- ========== Workspace converter (converter.ts) ==========

/-- `RelationshipData` from `converter.ts`.  The static type of `type` is
a 12-literal union, but the conversion function's default branch handles
arbitrary runtime strings, so the field is modelled as `String`. -/
structure RelationshipData : Type where
  type : String
  source : String
  target : String
deriving DecidableEq, Repr

/-- The record content shared by every `SysMLEdge` variant produced by
`convertRelationshipToEdge` (`sysml-edges.ts`): id, source, target and
the `type` discriminator. -/
structure SysMLEdge : Type where
  id : String
  source : String
  target : String
  type : String
deriving DecidableEq, Repr

/-- The closed relationship vocabulary of `RelationshipData.type`
(`converter.ts`). -/
def RELATIONSHIP_TYPE_VOCABULARY : List String :=
  ["specialization", "redefinition", "subsetting", "typing",
   "reference_subsetting", "cross_subsetting", "satisfy", "perform",
   "exhibit", "include", "assert", "verify"]

/-- `generateEdgeId` from `converter.ts`: the module-global counter is
made an explicit argument; returns the fresh id and the next counter. -/
def generateEdgeId (counter : Nat) : String × Nat :=
  ("edge_" ++ toString counter, counter + 1)

/-- `convertRelationshipToEdge` from `converter.ts`: the `switch` over
the relationship type, with the `throw` of the default branch modelled
as `Except.error` carrying the thrown message. -/
def convertRelationshipToEdge (counter : Nat) (relationship : RelationshipData) :
    Except String (SysMLEdge × Nat) :=
  let idc := generateEdgeId counter
  let edge : String → SysMLEdge := fun t =>
    { id := idc.1, source := relationship.source,
      target := relationship.target, type := t }
  if relationship.type = "specialization" then .ok (edge "specialization", idc.2)
  else if relationship.type = "redefinition" then .ok (edge "redefinition", idc.2)
  else if relationship.type = "subsetting" then .ok (edge "subsetting", idc.2)
  else if relationship.type = "typing" then .ok (edge "typing", idc.2)
  else if relationship.type = "reference_subsetting" then
    .ok (edge "reference_subsetting", idc.2)
  else if relationship.type = "cross_subsetting" then
    .ok (edge "cross_subsetting", idc.2)
  else if relationship.type = "satisfy" then .ok (edge "satisfy", idc.2)
  else if relationship.type = "perform" then .ok (edge "perform", idc.2)
  else if relationship.type = "exhibit" then .ok (edge "exhibit", idc.2)
  else if relationship.type = "include" then .ok (edge "include", idc.2)
  else if relationship.type = "assert" then .ok (edge "assert", idc.2)
  else if relationship.type = "verify" then .ok (edge "verify", idc.2)
  else .error ("Unknown relationship type: " ++ relationship.type)

-- ========== State-passing form of view resolution ==========

/-!
The source resolver receives the model context as a shared mutable
structure; to make the frame property "resolution does not mutate the
store" expressible, the store-touching functions are restated below in
state-passing form: every store access takes the current context and
returns the (possibly updated) context alongside its result.  Reads
(`Map.get`, iteration) return the context they were given.
-/

/-- State-passing `context.elements.get(key)`. -/
def getElementS (key : String) (context : ModelContext) :
    Option SysMLElement × ModelContext :=
  (context.getElement key, context)

/-- State-passing `resolveNamespacePattern` (a pure scan of the store). -/
def resolveNamespacePatternS (pat : String) (allMembers recursive : Bool)
    (context : ModelContext) : List SysMLElement × ModelContext :=
  (resolveNamespacePattern pat allMembers recursive context, context)

/-- State-passing `exposeMembers`, threading the context through the
child-lookup loop. -/
def exposeMembersS : Nat → SysMLElement → Bool → ModelContext →
    Option (List SysMLElement) × ModelContext
  | 0, _, _, context => (none, context)
  | fuel + 1, element, recursive, context =>
    element.children.foldl
      (fun acc childName =>
        match acc with
        | (none, ctx) => (none, ctx)
        | (some xs, ctx) =>
          let (childOpt, ctx1) := getElementS childName ctx
          match childOpt with
          | none => (some xs, ctx1)
          | some child =>
            if recursive then
              match exposeMembersS fuel child true ctx1 with
              | (none, ctx2) => (none, ctx2)
              | (some ys, ctx2) => (some (xs ++ ys), ctx2)
            else (some (xs ++ [child]), ctx1))
      (some [element], context)

/-- State-passing `resolveExposeClause`. -/
def resolveExposeClauseS (fuel : Nat) (expose : ExposeClause)
    (context : ModelContext) : Option (List SysMLElement) × ModelContext :=
  let (elementOpt, ctx1) := getElementS expose.target context
  match elementOpt with
  | none =>
    let (res, ctx2) := resolveNamespacePatternS expose.target
      (expose.allMembers.getD false) (expose.recursive.getD false) ctx1
    (some res, ctx2)
  | some element =>
    if !(expose.allMembers.getD false) then (some [element], ctx1)
    else exposeMembersS fuel element (expose.recursive.getD false) ctx1

/-- One iteration of the `collectExposedElements` loop, state-passing:
resolve the clause, then fold its elements into the accumulator map. -/
def collectStepS (fuel : Nat)
    (acc : Option (List (String × SysMLElement)) × ModelContext)
    (expose : ExposeClause) :
    Option (List (String × SysMLElement)) × ModelContext :=
  match acc with
  | (none, ctx) => (none, ctx)
  | (some m, ctx) =>
    match resolveExposeClauseS fuel expose ctx with
    | (none, ctx1) => (none, ctx1)
    | (some exposed, ctx1) =>
      (some (exposed.foldl (fun m element => mapSet m element.qualifiedName element) m),
       ctx1)

/-- State-passing `collectExposedElements`. -/
def collectExposedElementsS (fuel : Nat) (exposes : List ExposeClause)
    (context : ModelContext) : Option (List SysMLElement) × ModelContext :=
  let r := exposes.foldl (collectStepS fuel) (some [], context)
  (r.1.map (·.map (·.2)), r.2)

/-- State-passing `findRelationshipEdges` (reads `context.relationships`). -/
def findRelationshipEdgesS (elements : List SysMLElement)
    (context : ModelContext) : List DiagramEdgeObj × ModelContext :=
  (findRelationshipEdges elements context.relationships, context)

/-- State-passing `resolveView`. -/
def resolveViewS (fuel : Nat) (view : ViewUsage) (viewDef : ViewDefinition)
    (context : ModelContext) : Option ResolvedView × ModelContext :=
  match collectExposedElementsS fuel (effectiveExposes view viewDef) context with
  | (none, ctx1) => (none, ctx1)
  | (some exposedElements, ctx1) =>
    let filteredElements := applyFilters exposedElements (effectiveFilters view viewDef)
    let (edges, ctx2) := findRelationshipEdgesS filteredElements ctx1
    (some { view := view
            definition := viewDef
            nodes := filteredElements.map elementToNode
            edges := edges
            exposedCount := exposedElements.length
            filteredCount := filteredElements.length }, ctx2)

-- ========== Concrete fixtures used by counterexamples and witnesses ==========

/-- A `PortUsage` element (failing input of claim C1). -/
def portUsageElement : SysMLElement :=
  { id := "p1", name := "Port1", qualifiedName := "S::Port1",
    metaclass := "PortUsage", parent := none, children := [], properties := [] }

/-- A `PartUsage` element. -/
def partUsageElement : SysMLElement :=
  { id := "q1", name := "Part1", qualifiedName := "S::Part1",
    metaclass := "PartUsage", parent := none, children := [], properties := [] }

-- ========== C1 ==========

/-- Helper for C1: a single pass of the interconnection default filters
over one element. -/
theorem interconnection_default_filters_eval (element : SysMLElement) :
    (getDefaultFiltersForViewType "InterconnectionView").all
        (fun f => evaluateFilter element f) =
      decide (element.metaclass = "PartUsage") := by
  simp only [getDefaultFiltersForViewType, if_pos rfl, List.all_cons, List.all_nil,
    Bool.and_true]
  by_cases h1 : element.metaclass = "PartUsage"
  · simp [evaluateFilter, h1]
  · by_cases h2 : element.metaclass = "PortUsage" <;> simp [evaluateFilter, h1, h2]

/-- C1: the claim says the interconnection default filters keep exactly
the elements whose metaclass is `"PartUsage"` or `"PortUsage"`.  The
code disagrees: the first default filter (`metaclass: 'PartUsage'`) is
AND-ed with the second (`PortUsage` or `PartUsage`), so only
`"PartUsage"` elements survive; a `"PortUsage"` element is dropped.
This theorem evaluates the code at the failing input and characterizes
the filter's actual behaviour. -/
theorem C1_interconnection_defaults_keep_only_parts :
    applyFilters [portUsageElement]
        (getDefaultFiltersForViewType "InterconnectionView") = [] ∧
    portUsageElement.metaclass = "PortUsage" ∧
    ∀ elements : List SysMLElement,
      applyFilters elements (getDefaultFiltersForViewType "InterconnectionView") =
        elements.filter fun element => decide (element.metaclass = "PartUsage") := by
  refine ⟨by decide, rfl, fun elements => ?_⟩
  have hlen : (getDefaultFiltersForViewType "InterconnectionView").length = 2 := rfl
  unfold applyFilters
  rw [hlen]
  simp only [OfNat.ofNat_ne_zero, if_false]
  exact List.filter_congr fun element _ => interconnection_default_filters_eval element

-- ========== C3 ==========

/-- C3: when a filter node sets both `metaclass` and a non-empty
`expression` and has no `not`/`and`/`or`, the result is exactly the
expression test (metaclass substring OR name substring); the metaclass
equality test is overwritten and has no effect (the conclusion does not
depend on `m`). -/
theorem C3_expression_test_overrides_metaclass (element : SysMLElement)
    (i m s : String) (hs : s ≠ "") :
    evaluateFilter element (FilterExpression.mk i (some m) none none none (some s)) =
      (jsIncludes element.metaclass s || jsIncludes element.name s) := by
  simp [evaluateFilter, hs]

/-- Witness for C3 at a concrete element and filter. -/
theorem C3_expression_test_overrides_metaclass_witness :
    evaluateFilter partUsageElement
        (FilterExpression.mk "f" (some "PortUsage") none none none (some "Part")) = true :=
  (C3_expression_test_overrides_metaclass partUsageElement "f" "PortUsage" "Part"
    (by decide)).trans (by decide)

-- ========== C8 ==========

/-- C8: `applyFilters` is idempotent: filtering an already-filtered list
with the same filter list changes nothing. -/
theorem C8_applyFilters_idempotent (xs : List SysMLElement)
    (F : List FilterExpression) :
    applyFilters (applyFilters xs F) F = applyFilters xs F := by
  unfold applyFilters
  cases F with
  | nil => simp
  | cons f fs =>
    simp only [List.length_cons, Nat.succ_ne_zero, if_false]
    rw [List.filter_filter]
    exact List.filter_congr fun a _ => by
      cases h : (f :: fs).all fun g => evaluateFilter a g <;> simp [h]

-- ========== C10 ==========

/-- C10: when the expose target is not an exact key of the store, the
resolved elements do not depend on the `allMembers` flag (the namespace
pattern path receives the flag but never reads it). -/
theorem C10_namespace_pattern_ignores_allMembers (fuel : Nat)
    (context : ModelContext) (e : ExposeClause) (a : Option Bool)
    (h : context.getElement e.target = none) :
    resolveExposeClauseF fuel { e with allMembers := a } context =
      resolveExposeClauseF fuel e context := by
  unfold resolveExposeClauseF
  simp only [h]
  rfl

/-- Witness for C10: a store containing only `Pkg::A`, an expose rule
targeting the absent key `Pkg`, with `allMembers` flipped. -/
theorem C10_namespace_pattern_ignores_allMembers_witness :
    resolveExposeClauseF 1
        { id := "e", target := "Pkg", allMembers := some true,
          recursive := some false, aliasName := none }
        { elements := [("Pkg::A", partUsageElement)], relationships := [] } =
      resolveExposeClauseF 1
        { id := "e", target := "Pkg", allMembers := none,
          recursive := some false, aliasName := none }
        { elements := [("Pkg::A", partUsageElement)], relationships := [] } :=
  C10_namespace_pattern_ignores_allMembers 1
    { elements := [("Pkg::A", partUsageElement)], relationships := [] }
    { id := "e", target := "Pkg", allMembers := none,
      recursive := some false, aliasName := none }
    (some true) (by decide)

-- ========== C7 ==========

/-- C7: `convertRelationshipToEdge` succeeds exactly on the closed
twelve-word relationship vocabulary; outside it, it throws an error
naming the offending type; inside it, it returns an edge carrying the
relationship's endpoints and type. -/
theorem C7_convert_relationship_vocabulary (counter : Nat)
    (relationship : RelationshipData) :
    ((convertRelationshipToEdge counter relationship).isOk = true ↔
      relationship.type ∈ RELATIONSHIP_TYPE_VOCABULARY) ∧
    (relationship.type ∉ RELATIONSHIP_TYPE_VOCABULARY →
      convertRelationshipToEdge counter relationship =
        .error ("Unknown relationship type: " ++ relationship.type)) ∧
    (relationship.type ∈ RELATIONSHIP_TYPE_VOCABULARY →
      convertRelationshipToEdge counter relationship =
        .ok ({ id := (generateEdgeId counter).1, source := relationship.source,
               target := relationship.target, type := relationship.type },
             (generateEdgeId counter).2)) := by
  by_cases h : relationship.type ∈ RELATIONSHIP_TYPE_VOCABULARY
  · simp only [RELATIONSHIP_TYPE_VOCABULARY, List.mem_cons, List.not_mem_nil,
      or_false] at h
    rcases h with h | h | h | h | h | h | h | h | h | h | h | h <;>
      simp [convertRelationshipToEdge, RELATIONSHIP_TYPE_VOCABULARY, h,
        Except.isOk, Except.toBool]
  · have h' := h
    simp only [RELATIONSHIP_TYPE_VOCABULARY, List.mem_cons, List.not_mem_nil,
      or_false, not_or] at h'
    obtain ⟨h1, h2, h3, h4, h5, h6, h7, h8, h9, h10, h11, h12⟩ := h'
    simp [convertRelationshipToEdge, h, h1, h2, h3, h4, h5, h6, h7, h8, h9, h10,
      h11, h12, Except.isOk, Except.toBool]

/-- Witness for C7: the upstream type `"conjugation"` is outside the
vocabulary and produces the typed error naming it. -/
theorem C7_convert_relationship_vocabulary_witness :
    convertRelationshipToEdge 0
        { type := "conjugation", source := "x", target := "y" } =
      .error "Unknown relationship type: conjugation" :=
  (C7_convert_relationship_vocabulary 0
    { type := "conjugation", source := "x", target := "y" }).2.1 (by decide)

-- ========== C6 ==========

/-- The relationship of claim C6's example: `A → B`. -/
def relationshipAB : SysMLRelationship :=
  { id := "r1", type := "typing", source := "S::Part1", target := "S::Port1",
    properties := [] }

/-- C6: `findRelationshipEdges` keeps exactly the relationships whose
source and target are both qualified names of listed elements, each
converted to the edge object carrying the relationship's id, source,
target, type and property bag; with elements `{A}` only and a
relationship `A → B`, the edge list is empty. -/
theorem C6_findRelationshipEdges_both_endpoints :
    (∀ (elements : List SysMLElement) (relationships : List SysMLRelationship)
        (e : DiagramEdgeObj),
      e ∈ findRelationshipEdges elements relationships ↔
        ∃ rel ∈ relationships,
          (∃ a ∈ elements, a.qualifiedName = rel.source) ∧
          (∃ b ∈ elements, b.qualifiedName = rel.target) ∧
          e = relationshipToEdgeObj rel) ∧
    findRelationshipEdges [partUsageElement] [relationshipAB] = [] := by
  constructor
  · intro elements relationships e
    simp only [findRelationshipEdges, List.mem_map, List.mem_filter,
      Bool.and_eq_true, List.elem_iff, List.mem_map]
    constructor
    · rintro ⟨rel, ⟨hrel, hs, ht⟩, he⟩
      exact ⟨rel, hrel, hs, ht, he.symm⟩
    · rintro ⟨rel, hrel, hs, ht, he⟩
      exact ⟨rel, ⟨hrel, hs, ht⟩, he.symm⟩
  · decide

-- ========== C5 ==========
/-- Folding a step function that preserves the second (context)
component preserves it overall. -/
theorem foldl_snd_preserved {α β σ : Type} (f : α × σ → β → α × σ)
    (h : ∀ acc b, (f acc b).2 = acc.2) :
    ∀ (l : List β) (acc : α × σ), (l.foldl f acc).2 = acc.2 := by
  intro l
  induction l with
  | nil => intro acc; rfl
  | cons b rest ih => intro acc; rw [List.foldl_cons, ih, h]

/-- `exposeMembersS` returns the context it was given. -/
theorem exposeMembersS_context :
    ∀ (fuel : Nat) (element : SysMLElement) (recursive : Bool)
      (context : ModelContext),
      (exposeMembersS fuel element recursive context).2 = context := by
  intro fuel
  induction fuel with
  | zero => intro element recursive context; rfl
  | succ n ih =>
    intro element recursive context
    simp only [exposeMembersS]
    apply foldl_snd_preserved
    rintro ⟨o, ctx⟩ childName
    cases o with
    | none => rfl
    | some xs =>
      simp only [getElementS]
      cases hget : ctx.getElement childName with
      | none => rfl
      | some child =>
        cases recursive with
        | false => rfl
        | true =>
          simp only [if_pos]
          have h2 := ih child true ctx
          cases hrec : exposeMembersS n child true ctx with
          | mk o2 c2 =>
            rw [hrec] at h2
            cases o2 with
            | none => exact h2
            | some ys => exact h2

/-- `resolveExposeClauseS` returns the context it was given. -/
theorem resolveExposeClauseS_context (fuel : Nat) (expose : ExposeClause)
    (context : ModelContext) :
    (resolveExposeClauseS fuel expose context).2 = context := by
  simp only [resolveExposeClauseS, getElementS, resolveNamespacePatternS]
  cases context.getElement expose.target with
  | none => rfl
  | some element =>
    cases hb : expose.allMembers.getD false with
    | false => rfl
    | true => exact exposeMembersS_context fuel element (expose.recursive.getD false) context

/-- `collectStepS` returns the context it was given. -/
theorem collectStepS_context (fuel : Nat)
    (acc : Option (List (String × SysMLElement)) × ModelContext)
    (expose : ExposeClause) :
    (collectStepS fuel acc expose).2 = acc.2 := by
  rcases acc with ⟨o, ctx⟩
  cases o with
  | none => rfl
  | some m =>
    simp only [collectStepS]
    have h := resolveExposeClauseS_context fuel expose ctx
    rcases hres : resolveExposeClauseS fuel expose ctx with ⟨o1, c1⟩
    rw [hres] at h
    cases o1 with
    | none => exact h
    | some exposed => exact h

/-- `collectExposedElementsS` returns the context it was given. -/
theorem collectExposedElementsS_context (fuel : Nat)
    (exposes : List ExposeClause) (context : ModelContext) :
    (collectExposedElementsS fuel exposes context).2 = context := by
  simp only [collectExposedElementsS]
  exact foldl_snd_preserved (collectStepS fuel) (collectStepS_context fuel) exposes
    (some [], context)

/-- C5: `resolveView`, in its state-passing form, leaves the model
context unchanged: afterwards the elements map holds exactly the same
entries and the relationships list is exactly the same, in the same
order, as before the call. -/
theorem C5_resolveView_leaves_context_unchanged (fuel : Nat)
    (view : ViewUsage) (viewDef : ViewDefinition) (context : ModelContext) :
    (resolveViewS fuel view viewDef context).2.elements = context.elements ∧
    (resolveViewS fuel view viewDef context).2.relationships = context.relationships := by
  have h : (resolveViewS fuel view viewDef context).2 = context := by
    simp only [resolveViewS]
    have hc := collectExposedElementsS_context fuel (effectiveExposes view viewDef) context
    rcases hcol : collectExposedElementsS fuel (effectiveExposes view viewDef) context with ⟨o1, c1⟩
    rw [hcol] at hc
    cases o1 with
    | none => exact hc
    | some exposedElements => exact hc
  exact ⟨by rw [h], by rw [h]⟩

-- ========== C2 ==========

/-- The prefix stripping exactly as claim C2 (and spec §4.2) words it:
only a trailing `"::*"` or `"::**"` marker is removed, never a bare
trailing `"::"`.  Stated from the claim's words, for comparison with the
source's `stripNamespaceMarker`. -/
def claimStripMarker (pat : String) : String :=
  if jsEndsWith pat "::**" then jsDropRight pat 4
  else if jsEndsWith pat "::*" then jsDropRight pat 3
  else pat

/-- The resolved element list as claim C2 describes it: store elements
whose qualified name begins with the claim-stripped prefix followed by
`"::"`; direct children always, deeper descendants only when
`recursive`.  Stated from the claim's words. -/
def claimNamespaceResolve (target : String) (recursive : Bool)
    (context : ModelContext) : List SysMLElement :=
  let pfx := claimStripMarker target
  (context.elements.filter fun kv =>
    jsStartsWith kv.1 (pfx ++ "::") &&
      (!jsIncludes (jsDrop kv.1 (jsLength pfx + 2)) "::" || recursive)).map (·.2)

/-- The element `Pkg::A` of the claim C2 example. -/
def pkgAElement : SysMLElement :=
  { id := "a", name := "A", qualifiedName := "Pkg::A", metaclass := "PartUsage",
    parent := none, children := [], properties := [] }

/-- The element `Pkg::A::B` of the claim C2 example. -/
def pkgABElement : SysMLElement :=
  { id := "b", name := "B", qualifiedName := "Pkg::A::B", metaclass := "PartUsage",
    parent := none, children := [], properties := [] }

/-- A store containing `Pkg::A` and `Pkg::A::B` but not `Pkg` itself. -/
def pkgContext : ModelContext :=
  { elements := [("Pkg::A", pkgAElement), ("Pkg::A::B", pkgABElement)],
    relationships := [] }

/-- Counterexample to C2 as stated: for the non-exact target `"Pkg::"`
the source regex also strips the bare trailing `"::"` (prefix `"Pkg"`,
resolving `Pkg::A`), while the claim's stripping leaves `"Pkg::"`
(prefix `"Pkg::"`, resolving nothing), so the rule does not resolve to
the claim-described set. -/
theorem C2_trailing_separator_counterexample :
    pkgContext.getElement "Pkg::" = none ∧
    resolveExposeClauseF 1
        { id := "e", target := "Pkg::", allMembers := some false,
          recursive := some false, aliasName := none } pkgContext =
      some [pkgAElement] ∧
    claimNamespaceResolve "Pkg::" false pkgContext = [] ∧
    resolveExposeClauseF 1
        { id := "e", target := "Pkg::", allMembers := some false,
          recursive := some false, aliasName := none } pkgContext ≠
      some (claimNamespaceResolve "Pkg::" false pkgContext) := by decide

/-- C2 (amended): for a target that is not an exact key, after stripping
any trailing `"::"`, `"::*"` or `"::**"` marker, the rule resolves to
exactly the store elements whose qualified name begins with the stripped
prefix followed by `"::"`; a direct child (no further `"::"` in the
remainder) is always included, a deeper descendant only when the rule's
`recursive` flag is set. -/
theorem C2_namespace_pattern_resolution (fuel : Nat) (context : ModelContext)
    (e : ExposeClause) (h : context.getElement e.target = none) :
    ∃ resolved, resolveExposeClauseF fuel e context = some resolved ∧
      ∀ el, el ∈ resolved ↔ ∃ k,
        (k, el) ∈ context.elements ∧
        jsStartsWith k (stripNamespaceMarker e.target ++ "::") = true ∧
        (jsIncludes (jsDrop k (jsLength (stripNamespaceMarker e.target) + 2)) "::" = false ∨
          e.recursive.getD false = true) := by
  unfold resolveExposeClauseF
  rw [h]
  refine ⟨_, rfl, ?_⟩
  intro el
  unfold resolveNamespacePattern
  simp only [List.mem_map, List.mem_filter, Bool.and_eq_true, Bool.or_eq_true,
    Bool.not_eq_true']
  constructor
  · rintro ⟨⟨k, v⟩, ⟨hmem, hsw, hrest⟩, rfl⟩
    exact ⟨k, hmem, hsw, hrest.symm⟩
  · rintro ⟨k, hmem, hsw, hor⟩
    exact ⟨(k, el), ⟨hmem, hsw, hor.symm⟩, rfl⟩

/-- Witness for the amended C2 on the claim's own example store: target
`"Pkg"` (absent as exact key) with `recursive = false` yields exactly
`Pkg::A`; with `recursive = true` it also yields `Pkg::A::B`. -/
theorem C2_namespace_pattern_resolution_witness :
    (∃ resolved, resolveExposeClauseF 1
        { id := "e", target := "Pkg", allMembers := some false,
          recursive := some false, aliasName := none } pkgContext =
          some resolved ∧
      ∀ el, el ∈ resolved ↔ ∃ k,
        (k, el) ∈ pkgContext.elements ∧
        jsStartsWith k (stripNamespaceMarker "Pkg" ++ "::") = true ∧
        (jsIncludes (jsDrop k (jsLength (stripNamespaceMarker "Pkg") + 2)) "::" = false ∨
          (some false : Option Bool).getD false = true)) ∧
    resolveExposeClauseF 1
        { id := "e", target := "Pkg", allMembers := some false,
          recursive := some false, aliasName := none } pkgContext =
      some [pkgAElement] ∧
    resolveExposeClauseF 1
        { id := "e", target := "Pkg", allMembers := some false,
          recursive := some true, aliasName := none } pkgContext =
      some [pkgAElement, pkgABElement] :=
  ⟨C2_namespace_pattern_resolution 1 pkgContext
      { id := "e", target := "Pkg", allMembers := some false,
        recursive := some false, aliasName := none } (by decide),
   by decide, by decide⟩

-- ========== C9 ==========

/-- Keys with no binding in an association list have no binding in its
reverse either. -/
theorem lookup_eq_none_iff {β : Type} (k : String) :
    ∀ l : List (String × β), l.lookup k = none ↔ ∀ p ∈ l, (k == p.1) = false := by
  intro l
  induction l with
  | nil => simp [List.lookup]
  | cons p rest ih =>
    rcases p with ⟨k1, v1⟩
    simp only [List.lookup]
    cases hbe : k == k1 with
    | true =>
      constructor
      · intro hnone; exact Option.noConfusion hnone
      · intro hall
        have h1 := hall (k1, v1) (List.mem_cons_self _ _)
        exact Bool.noConfusion (hbe.symm.trans h1)
    | false =>
      constructor
      · intro hnone p hp
        rcases List.mem_cons.mp hp with heq | hp'
        · rw [heq]; exact hbe
        · exact ih.mp hnone p hp'
      · intro hall
        exact ih.mpr fun p hp => hall p (List.mem_cons_of_mem _ hp)

/-- Reversing an association list preserves the absence of a key. -/
theorem lookup_reverse_none {β : Type} (k : String) (l : List (String × β))
    (h : l.lookup k = none) : l.reverse.lookup k = none := by
  rw [lookup_eq_none_iff] at h ⊢
  intro p hp
  exact h p (List.mem_reverse.mp hp)

/-- Looking a key up in the concatenation skips a first part that does
not bind it. -/
theorem lookup_append_of_none {β : Type} (k : String) (l1 l2 : List (String × β))
    (h : l1.lookup k = none) : (l1 ++ l2).lookup k = l2.lookup k := by
  induction l1 with
  | nil => rfl
  | cons p rest ih =>
    rcases p with ⟨k1, v1⟩
    simp only [List.cons_append, List.lookup] at h ⊢
    cases hbe : k == k1 with
    | true => rw [hbe] at h; exact Option.noConfusion h
    | false => rw [hbe] at h; exact ih h

/-- A relationship property bag that binds none of the four edge field
keys (the proviso of claim C9). -/
def propsAvoidEdgeKeys (props : List (String × PropVal)) : Prop :=
  props.lookup "id" = none ∧ props.lookup "source" = none ∧
  props.lookup "target" = none ∧ props.lookup "type" = none

instance (props : List (String × PropVal)) : Decidable (propsAvoidEdgeKeys props) := by
  unfold propsAvoidEdgeKeys; infer_instance

/-- With a clean property bag, the edge object's `source` field is the
relationship's source. -/
theorem objGet_edge_source (rel : SysMLRelationship)
    (h : rel.properties.lookup "source" = none) :
    objGet (relationshipToEdgeObj rel) "source" = some (PropVal.str rel.source) := by
  unfold objGet relationshipToEdgeObj
  rw [List.reverse_append, lookup_append_of_none _ _ _ (lookup_reverse_none _ _ h)]
  simp [List.lookup]

/-- With a clean property bag, the edge object's `target` field is the
relationship's target. -/
theorem objGet_edge_target (rel : SysMLRelationship)
    (h : rel.properties.lookup "target" = none) :
    objGet (relationshipToEdgeObj rel) "target" = some (PropVal.str rel.target) := by
  unfold objGet relationshipToEdgeObj
  rw [List.reverse_append, lookup_append_of_none _ _ _ (lookup_reverse_none _ _ h)]
  simp [List.lookup]

/-- C9: in a resolved view, provided no surviving relationship's
property bag binds the keys `id`/`source`/`target`/`type`, every edge's
`source` and `target` fields are qualified names of elements that
survived filtering (not the `id` fields `elementToNode` uses as node
identifiers). -/
theorem C9_edge_endpoints_are_surviving_qualified_names
    (fuel : Nat) (view : ViewUsage) (viewDef : ViewDefinition)
    (context : ModelContext) (exposed : List SysMLElement) (rv : ResolvedView)
    (hexp : collectExposedElementsF fuel (effectiveExposes view viewDef) context =
      some exposed)
    (hclean : ∀ rel ∈ context.relationships,
      rel.source ∈ (applyFilters exposed (effectiveFilters view viewDef)).map
        (·.qualifiedName) →
      rel.target ∈ (applyFilters exposed (effectiveFilters view viewDef)).map
        (·.qualifiedName) →
      propsAvoidEdgeKeys rel.properties)
    (hrv : resolveViewF fuel view viewDef context = some rv) :
    ∀ e ∈ rv.edges,
      (∃ el ∈ applyFilters exposed (effectiveFilters view viewDef),
        objGet e "source" = some (PropVal.str el.qualifiedName)) ∧
      (∃ el ∈ applyFilters exposed (effectiveFilters view viewDef),
        objGet e "target" = some (PropVal.str el.qualifiedName)) := by
  unfold resolveViewF at hrv
  rw [hexp] at hrv
  simp only [Option.bind_eq_bind, Option.some_bind, Option.pure_def,
    Option.some.injEq] at hrv
  subst hrv
  intro e he
  simp only [findRelationshipEdges, List.mem_map, List.mem_filter,
    Bool.and_eq_true, List.elem_iff] at he
  obtain ⟨rel, ⟨hrel, hs, ht⟩, rfl⟩ := he
  have hc := hclean rel hrel (List.mem_map.mpr hs) (List.mem_map.mpr ht)
  refine ⟨?_, ?_⟩
  · obtain ⟨el, hel, hq⟩ := hs
    exact ⟨el, hel, by rw [objGet_edge_source rel hc.2.1, hq]⟩
  · obtain ⟨el, hel, hq⟩ := ht
    exact ⟨el, hel, by rw [objGet_edge_target rel hc.2.2.1, hq]⟩

/-- A relationship between the two fixture elements, with an empty
property bag. -/
def relPartPort : SysMLRelationship :=
  { id := "r2", type := "dependency", source := "S::Part1",
    target := "S::Port1", properties := [] }

/-- A store holding the two fixture elements and one relationship. -/
def ctxC9 : ModelContext :=
  { elements := [("S::Part1", partUsageElement), ("S::Port1", portUsageElement)],
    relationships := [relPartPort] }

/-- A view usage with no overrides. -/
def plainViewUsage : ViewUsage :=
  { id := "v", name := "v", qualifiedName := "v", definition := none,
    exposes := none, filters := none, rendering := none }

/-- A view definition exposing both fixture elements with no filters. -/
def exposeBothViewDef : ViewDefinition :=
  { id := "d", name := "d", qualifiedName := "d", viewType := "GeneralView",
    documentation := none,
    exposes := [{ id := "e1", target := "S::Part1", allMembers := none,
                  recursive := none, aliasName := none },
                { id := "e2", target := "S::Port1", allMembers := none,
                  recursive := none, aliasName := none }],
    filters := [], rendering := none }

/-- The resolved view of the C9 witness scenario. -/
def resolvedC9 : ResolvedView :=
  (resolveViewF 1 plainViewUsage exposeBothViewDef ctxC9).get (by decide)

/-- Witness for C9 on a concrete two-element model with one edge. -/
theorem C9_edge_endpoints_witness :
    (∃ el ∈ applyFilters [partUsageElement, portUsageElement]
        (effectiveFilters plainViewUsage exposeBothViewDef),
      objGet (relationshipToEdgeObj relPartPort) "source" =
        some (PropVal.str el.qualifiedName)) ∧
    (∃ el ∈ applyFilters [partUsageElement, portUsageElement]
        (effectiveFilters plainViewUsage exposeBothViewDef),
      objGet (relationshipToEdgeObj relPartPort) "target" =
        some (PropVal.str el.qualifiedName)) := by
  have h := C9_edge_endpoints_are_surviving_qualified_names 1 plainViewUsage
    exposeBothViewDef ctxC9 [partUsageElement, portUsageElement] resolvedC9
    (by decide) (by decide) (Option.some_get _).symm
  exact h (relationshipToEdgeObj relPartPort) (by decide)

-- ========== C4 ==========

/-- The parent-to-child reference step of the store: `c` is listed among
the children of the element stored at key `p`, and `c` itself resolves
in the store (children absent from the store are skipped by
`exposeMembers` and never recursed into). -/
def childStep (context : ModelContext) (c p : String) : Prop :=
  ∃ pe, context.getElement p = some pe ∧ c ∈ pe.children ∧
    (context.getElement c).isSome = true

/-- Acyclicity of the parent-to-child reference graph over stored
elements: no key reaches itself through child links. -/
def AcyclicChildren (context : ModelContext) : Prop :=
  ∀ k, ¬ Relation.TransGen (childStep context) k k

/-- A key whose lookup succeeds is among the stored keys. -/
theorem mem_keys_of_lookup_isSome {β : Type} (k : String) :
    ∀ l : List (String × β), (l.lookup k).isSome = true → k ∈ l.map Prod.fst := by
  intro l
  induction l with
  | nil => intro h; exact absurd h (by simp [List.lookup])
  | cons p rest ih =>
    rcases p with ⟨k1, v1⟩
    intro h
    simp only [List.lookup] at h
    cases hbe : k == k1 with
    | true =>
      have : k = k1 := eq_of_beq hbe
      simp [this]
    | false =>
      rw [hbe] at h
      exact List.mem_cons_of_mem _ (ih h)

/-- `mapM` over `Option` succeeds when every entry succeeds. -/
theorem mapM_isSome {α β : Type} (g : α → Option β) :
    ∀ l : List α, (∀ a ∈ l, (g a).isSome = true) →
      (l.mapM g).isSome = true := by
  intro l
  induction l with
  | nil => intro _; rfl
  | cons a rest ih =>
    intro h
    rw [List.mapM_cons]
    obtain ⟨b, hb⟩ := Option.isSome_iff_exists.mp (h a (List.mem_cons_self _ _))
    obtain ⟨bs, hbs⟩ := Option.isSome_iff_exists.mp
      (ih fun x hx => h x (List.mem_cons_of_mem _ hx))
    rw [hb]
    simp only [Option.bind_eq_bind, Option.some_bind]
    rw [hbs]
    simp

/-- `mapM` over `Option` is preserved by a pointwise success-preserving
replacement of the entry function. -/
theorem mapM_some_congr {α β : Type} (g1 g2 : α → Option β) :
    ∀ l : List α, (∀ a ∈ l, ∀ b, g1 a = some b → g2 a = some b) →
      ∀ ys, l.mapM g1 = some ys → l.mapM g2 = some ys := by
  intro l
  induction l with
  | nil => intro _ ys h; simpa using h
  | cons a rest ih =>
    intro hptw ys hmap
    rw [List.mapM_cons] at hmap ⊢
    cases hga : g1 a with
    | none => rw [hga] at hmap; simp at hmap
    | some b =>
      rw [hga] at hmap
      simp only [Option.bind_eq_bind, Option.some_bind] at hmap
      cases hrest : rest.mapM g1 with
      | none => rw [hrest] at hmap; simp at hmap
      | some bs =>
        rw [hrest] at hmap
        simp only [Option.some_bind, Option.pure_def, Option.some.injEq] at hmap
        rw [hptw a (List.mem_cons_self _ _) b hga]
        simp only [Option.bind_eq_bind, Option.some_bind]
        rw [ih (fun x hx => hptw x (List.mem_cons_of_mem _ hx)) bs hrest]
        simp only [Option.some_bind, Option.pure_def, Option.some.injEq]
        exact hmap

/-- A finite list of fuel requirements has a uniform bound. -/
theorem exists_uniform_fuel {α : Type} (Q : Nat → α → Prop)
    (mono : ∀ f1 f2 a, f1 ≤ f2 → Q f1 a → Q f2 a) :
    ∀ l : List α, (∀ a ∈ l, ∃ f, Q f a) → ∃ F, ∀ a ∈ l, Q F a := by
  intro l
  induction l with
  | nil => intro _; exact ⟨0, by simp⟩
  | cons a rest ih =>
    intro h
    obtain ⟨fa, hfa⟩ := h a (List.mem_cons_self _ _)
    obtain ⟨F, hF⟩ := ih fun x hx => h x (List.mem_cons_of_mem _ hx)
    refine ⟨max fa F, fun x hx => ?_⟩
    rcases List.mem_cons.mp hx with rfl | hx'
    · exact mono fa _ x (Nat.le_max_left _ _) hfa
    · exact mono F _ x (Nat.le_max_right _ _) (hF x hx')

/-- More fuel never changes a successful `exposeMembers` run. -/
theorem exposeMembersF_mono :
    ∀ f1 f2 : Nat, f1 ≤ f2 →
      ∀ (element : SysMLElement) (recursive : Bool) (context : ModelContext)
        (xs : List SysMLElement),
        exposeMembersF f1 element recursive context = some xs →
        exposeMembersF f2 element recursive context = some xs := by
  intro f1
  induction f1 with
  | zero =>
    intro f2 _ e r c xs h
    exact absurd h (by simp [exposeMembersF])
  | succ n ih =>
    intro f2 hle e r c xs h
    obtain ⟨m, rfl⟩ : ∃ m, f2 = m + 1 := ⟨f2 - 1, by omega⟩
    simp only [exposeMembersF] at h ⊢
    cases hmap : e.children.mapM
        (exposeChildF r c fun child => exposeMembersF n child true c) with
    | none => rw [hmap] at h; simp at h
    | some cls =>
      rw [hmap] at h
      have hmap2 : e.children.mapM
          (exposeChildF r c fun child => exposeMembersF m child true c) = some cls := by
        refine mapM_some_congr _ _ e.children ?_ cls hmap
        intro a _ b hb
        unfold exposeChildF at hb ⊢
        cases hget : c.getElement a with
        | none => rw [hget] at hb; exact hb
        | some child =>
          rw [hget] at hb
          cases r with
          | false => exact hb
          | true => exact ih m (by omega) child true c b hb
      rw [hmap2]
      exact h

/-- A child-step target is a stored key. -/
theorem childStep_mem_keys {context : ModelContext} {c p : String}
    (h : childStep context c p) : c ∈ context.elements.map Prod.fst := by
  obtain ⟨pe, -, -, hcs⟩ := h
  exact mem_keys_of_lookup_isSome c context.elements hcs

/-- A child-step source is a stored key. -/
theorem childStep_mem_keys_parent {context : ModelContext} {c p : String}
    (h : childStep context c p) : p ∈ context.elements.map Prod.fst := by
  obtain ⟨pe, hp, -, -⟩ := h
  refine mem_keys_of_lookup_isSome p context.elements ?_
  unfold ModelContext.getElement at hp
  rw [hp]
  rfl

/-- On an acyclic store, the child-step relation is well founded: the
stored keys are finitely many, the transitive closure restricted to them
is transitive and (by acyclicity) irreflexive, hence well founded on the
finite subtype, and every child-step predecessor is a stored key. -/
theorem childStep_wf (context : ModelContext) (hcyc : AcyclicChildren context) :
    WellFounded (childStep context) := by
  have hfin : Finite {s : String // s ∈ context.elements.map Prod.fst} := by
    have h1 : {x : String | x ∈ context.elements.map Prod.fst}.Finite :=
      List.finite_toSet _
    exact h1.to_subtype
  let r' : {s : String // s ∈ context.elements.map Prod.fst} →
      {s : String // s ∈ context.elements.map Prod.fst} → Prop :=
    fun a b => Relation.TransGen (childStep context) a.1 b.1
  have htr : IsTrans _ r' := ⟨fun a b c hab hbc => Relation.TransGen.trans hab hbc⟩
  have hirr : IsIrrefl _ r' := ⟨fun a ha => hcyc a.1 ha⟩
  have hwf' : WellFounded r' := Finite.wellFounded_of_trans_of_irrefl r'
  have hwf2 : WellFounded (fun (a b : {s : String // s ∈ context.elements.map Prod.fst}) =>
      childStep context a.1 b.1) :=
    Subrelation.wf (fun {a b} hab => Relation.TransGen.single hab) hwf'
  have haccS : ∀ x : {s : String // s ∈ context.elements.map Prod.fst},
      Acc (childStep context) x.1 := by
    intro x
    refine hwf2.induction (C := fun y => Acc (childStep context) y.1) x ?_
    intro y ih
    constructor
    intro c hc
    exact ih ⟨c, childStep_mem_keys hc⟩ hc
  constructor
  intro p
  constructor
  intro c hc
  exact haccS ⟨c, childStep_mem_keys hc⟩

/-- On an acyclic store, member expansion of any stored element
succeeds for some amount of fuel. -/
theorem exposeMembersF_exists (context : ModelContext)
    (hcyc : AcyclicChildren context) :
    ∀ (p : String) (e : SysMLElement), context.getElement p = some e →
      ∀ r : Bool, ∃ fuel, (exposeMembersF fuel e r context).isSome = true := by
  have hwf := childStep_wf context hcyc
  intro p
  refine hwf.induction (C := fun q => ∀ e, context.getElement q = some e →
    ∀ r, ∃ fuel, (exposeMembersF fuel e r context).isSome = true) p ?_
  intro q ih e hq r
  cases r with
  | false =>
    refine ⟨1, ?_⟩
    simp only [exposeMembersF]
    have hm : (e.children.mapM (exposeChildF false context
        fun _ => (none : Option (List SysMLElement)))).isSome = true := by
      apply mapM_isSome
      intro a _
      unfold exposeChildF
      cases context.getElement a with
      | none => rfl
      | some child => rfl
    obtain ⟨cls, hcls⟩ := Option.isSome_iff_exists.mp hm
    rw [hcls]
    rfl
  | true =>
    have hchild : ∀ a ∈ e.children, ∃ f,
        (exposeChildF true context
          (fun child => exposeMembersF f child true context) a).isSome = true := by
      intro a ha
      unfold exposeChildF
      cases hget : context.getElement a with
      | none => exact ⟨0, rfl⟩
      | some child =>
        have hstep : childStep context a q := ⟨e, hq, ha, by rw [hget]; rfl⟩
        obtain ⟨f, hf⟩ := ih a hstep child hget true
        exact ⟨f, hf⟩
    have hmono : ∀ (f1 f2 : Nat) (a : String), f1 ≤ f2 →
        (exposeChildF true context
          (fun child => exposeMembersF f1 child true context) a).isSome = true →
        (exposeChildF true context
          (fun child => exposeMembersF f2 child true context) a).isSome = true := by
      intro f1 f2 a hle h1
      unfold exposeChildF at h1 ⊢
      cases hget : context.getElement a with
      | none => rfl
      | some child =>
        rw [hget] at h1
        obtain ⟨xs, hxs⟩ := Option.isSome_iff_exists.mp h1
        have h2 : (exposeMembersF f2 child true context).isSome = true := by
          rw [exposeMembersF_mono f1 f2 hle child true context xs hxs]
          rfl
        exact h2
    obtain ⟨F, hF⟩ := exists_uniform_fuel
      (fun f a => (exposeChildF true context
        (fun child => exposeMembersF f child true context) a).isSome = true)
      hmono e.children hchild
    refine ⟨F + 1, ?_⟩
    simp only [exposeMembersF]
    obtain ⟨cls, hcls⟩ := Option.isSome_iff_exists.mp (mapM_isSome _ e.children hF)
    rw [hcls]
    rfl

/-- More fuel never changes a successful expose-clause resolution. -/
theorem resolveExposeClauseF_mono (f1 f2 : Nat) (hle : f1 ≤ f2)
    (expose : ExposeClause) (context : ModelContext) (xs : List SysMLElement)
    (h : resolveExposeClauseF f1 expose context = some xs) :
    resolveExposeClauseF f2 expose context = some xs := by
  unfold resolveExposeClauseF at h ⊢
  cases hget : context.getElement expose.target with
  | none => rw [hget] at h; exact h
  | some element =>
    rw [hget] at h
    cases hb : expose.allMembers.getD false with
    | false => rw [hb] at h; exact h
    | true =>
      rw [hb] at h
      exact exposeMembersF_mono f1 f2 hle element (expose.recursive.getD false)
        context xs h

/-- On an acyclic store every expose clause resolves with some fuel. -/
theorem resolveExposeClauseF_exists (context : ModelContext)
    (hcyc : AcyclicChildren context) (expose : ExposeClause) :
    ∃ fuel, (resolveExposeClauseF fuel expose context).isSome = true := by
  unfold resolveExposeClauseF
  cases hget : context.getElement expose.target with
  | none => exact ⟨0, rfl⟩
  | some element =>
    cases hb : expose.allMembers.getD false with
    | false => exact ⟨0, rfl⟩
    | true =>
      obtain ⟨f, hf⟩ := exposeMembersF_exists context hcyc expose.target element hget
        (expose.recursive.getD false)
      exact ⟨f, hf⟩

/-- `foldlM` over `Option` succeeds when every step succeeds on every
accumulator. -/
theorem foldlM_isSome {α β : Type} (step : β → α → Option β) :
    ∀ (l : List α) (b : β), (∀ a ∈ l, ∀ acc, (step acc a).isSome = true) →
      (l.foldlM step b).isSome = true := by
  intro l
  induction l with
  | nil => intro b _; rfl
  | cons a rest ih =>
    intro b h
    rw [List.foldlM_cons]
    obtain ⟨b1, hb1⟩ := Option.isSome_iff_exists.mp (h a (List.mem_cons_self _ _) b)
    rw [hb1]
    exact ih b1 fun x hx acc => h x (List.mem_cons_of_mem _ hx) acc

/-- On an acyclic store, expose collection succeeds with some fuel. -/
theorem collectExposedElementsF_exists (context : ModelContext)
    (hcyc : AcyclicChildren context) (exposes : List ExposeClause) :
    ∃ fuel, (collectExposedElementsF fuel exposes context).isSome = true := by
  have hmono : ∀ (f1 f2 : Nat) (e : ExposeClause), f1 ≤ f2 →
      (resolveExposeClauseF f1 e context).isSome = true →
      (resolveExposeClauseF f2 e context).isSome = true := by
    intro f1 f2 e hle h1
    obtain ⟨xs, hxs⟩ := Option.isSome_iff_exists.mp h1
    rw [resolveExposeClauseF_mono f1 f2 hle e context xs hxs]
    rfl
  obtain ⟨F, hF⟩ := exists_uniform_fuel
    (fun f e => (resolveExposeClauseF f e context).isSome = true) hmono exposes
    (fun e _ => resolveExposeClauseF_exists context hcyc e)
  refine ⟨F, ?_⟩
  unfold collectExposedElementsF
  have hfold : (exposes.foldlM
      (fun acc expose => do
        let exposed ← resolveExposeClauseF F expose context
        return exposed.foldl
          (fun acc (element : SysMLElement) => mapSet acc element.qualifiedName element) acc)
      ([] : List (String × SysMLElement))).isSome = true := by
    apply foldlM_isSome
    intro a ha acc
    obtain ⟨xs, hxs⟩ := Option.isSome_iff_exists.mp (hF a ha)
    rw [hxs]
    rfl
  obtain ⟨res, hres⟩ := Option.isSome_iff_exists.mp hfold
  rw [hres]
  rfl

/-- On an acyclic store, view resolution succeeds with some fuel. -/
theorem resolveViewF_exists (context : ModelContext)
    (hcyc : AcyclicChildren context) (view : ViewUsage)
    (viewDef : ViewDefinition) :
    ∃ fuel, (resolveViewF fuel view viewDef context).isSome = true := by
  obtain ⟨F, hF⟩ := collectExposedElementsF_exists context hcyc
    (effectiveExposes view viewDef)
  refine ⟨F, ?_⟩
  unfold resolveViewF
  obtain ⟨xs, hxs⟩ := Option.isSome_iff_exists.mp hF
  rw [hxs]
  rfl

/-- C4: when the parent-to-child reference graph over stored elements is
acyclic, expose resolution (member expansion included) and hence view
resolution terminate: enough fuel makes the fuel-indexed embedding
return a result. -/
theorem C4_resolution_terminates_on_acyclic_store (context : ModelContext)
    (hcyc : AcyclicChildren context) :
    (∀ exposes : List ExposeClause, ∃ fuel,
      (collectExposedElementsF fuel exposes context).isSome = true) ∧
    (∀ (view : ViewUsage) (viewDef : ViewDefinition), ∃ fuel,
      (resolveViewF fuel view viewDef context).isSome = true) :=
  ⟨collectExposedElementsF_exists context hcyc,
   resolveViewF_exists context hcyc⟩

/-- Witness for C4 on a concrete childless (hence acyclic) store. -/
theorem C4_resolution_terminates_witness :
    (∃ fuel, (collectExposedElementsF fuel exposeBothViewDef.exposes ctxC9).isSome = true) ∧
    (∃ fuel, (resolveViewF fuel plainViewUsage exposeBothViewDef ctxC9).isSome = true) := by
  have hnostep : ∀ c p, ¬ childStep ctxC9 c p := by
    rintro c p ⟨pe, hp, hmem, -⟩
    simp only [ctxC9, ModelContext.getElement, List.lookup] at hp
    split at hp
    · cases hp; simp [partUsageElement] at hmem
    · split at hp
      · cases hp; simp [portUsageElement] at hmem
      · exact Option.noConfusion hp
  have hcyc : AcyclicChildren ctxC9 := by
    intro k h
    cases h with
    | single h1 => exact hnostep _ _ h1
    | tail h1 h2 => exact hnostep _ _ h2
  exact ⟨(C4_resolution_terminates_on_acyclic_store ctxC9 hcyc).1 exposeBothViewDef.exposes,
         (C4_resolution_terminates_on_acyclic_store ctxC9 hcyc).2 plainViewUsage exposeBothViewDef⟩
